import Mathlib

/-
Verification development for the EuroScaper repository (src/db_utils.py).

The Python module implements one class, `EuromilhoesDB`, whose core logic is:
  * `ler_ultimo_sorteio`  – read the last record of the CSV ledger,
  * `salvar_novo_sorteio` – append one row to the CSV ledger,
  * `import_from_csv`     – rebuild the SQLite mirror table from the CSV,
  * `obter_resultados`    – scrape and parse the latest draw from the web page,
  * `atualizar_resultados` – the reconciliation cycle tying those together.

This file gives a shallow embedding of that logic.  CSV files are modelled as
lists of rows (each row a list of field strings; a blank line is the empty
row, which is what Python's `csv.reader` yields for it).  The HTML page is
modelled by the values of the named lookups the code performs on it
(`soup.find("span", class_="dataInfo")` and so on); all the string parsing
that the code performs on the looked-up texts is embedded faithfully.
Python exceptions are modelled explicitly: branches where the code catches
them reproduce the caught behaviour, branches where it does not are a
`raised` outcome.
-/

namespace EuroScaper

/-! ### Python string primitives

Executable embeddings of the Python string operations the module uses:
`str.split(sep)`, `str.split()` (whitespace split), `str.strip()`,
`str.isdigit()`, `int(s)` and decimal rendering of integers (`str(i)`).
-/

/-- Digit list of a natural number, most significant first, via a fuel
parameter so that the definition is structural (the fuel is always ample:
`natDigits` passes `n + 1`). -/
def natDigitsAux : Nat → Nat → List Char
  | 0, _ => []
  | fuel + 1, n =>
    if n < 10 then [Nat.digitChar n]
    else natDigitsAux fuel (n / 10) ++ [Nat.digitChar (n % 10)]

/-- Decimal digits of `n`, most significant first (`natDigits 0 = ['0']`). -/
def natDigits (n : Nat) : List Char := natDigitsAux (n + 1) n

/-- Value of a digit string read left to right. -/
def foldDigits (cs : List Char) : Nat :=
  cs.foldl (fun a c => a * 10 + (c.toNat - 48)) 0

/-- Parse a non-empty all-digit character list as a natural number. -/
def parseDigits (cs : List Char) : Option Nat :=
  if cs ≠ [] ∧ cs.all Char.isDigit then some (foldDigits cs) else none

/-- Python `str.strip()` on a character list. -/
def pyStrip (cs : List Char) : List Char :=
  ((cs.dropWhile Char.isWhitespace).reverse.dropWhile Char.isWhitespace).reverse

/-- Python `str.strip()` on a string. -/
def stripS (s : String) : String := ⟨pyStrip s.data⟩

/-- Python `s.split(sep)` for a one-character separator `sep`: every
occurrence separates, empty parts are kept. -/
def splitChar (sep : Char) : List Char → List (List Char)
  | [] => [[]]
  | c :: rest =>
    if c = sep then [] :: splitChar sep rest
    else
      match splitChar sep rest with
      | [] => [[c]]
      | p :: ps => (c :: p) :: ps

/-- `splitChar` lifted to strings. -/
def splitCharS (s : String) (sep : Char) : List String :=
  (splitChar sep s.data).map (fun l => (⟨l⟩ : String))

/-- Python `s.split(sep)` for a multi-character separator, fuelled so the
definition is structural; `pySplitL` passes ample fuel. -/
def pySplitAux (s0 : Char) (srest : List Char) : Nat → List Char → List (List Char)
  | _, [] => [[]]
  | 0, l => [l]
  | fuel + 1, c :: rest =>
    if (s0 :: srest).isPrefixOf (c :: rest) then
      [] :: pySplitAux s0 srest fuel (rest.drop srest.length)
    else
      match pySplitAux s0 srest fuel rest with
      | [] => [[c]]
      | p :: ps => (c :: p) :: ps

/-- Python `s.split(sep)` on character lists (`sep` non-empty in every use,
as in the source, where the separators are string literals). -/
def pySplitL (sep : List Char) (l : List Char) : List (List Char) :=
  match sep with
  | [] => [l]
  | c :: cs => pySplitAux c cs l.length l

/-- Python `s.split(sep)` on strings. -/
def pySplitS (s sep : String) : List String :=
  (pySplitL sep.data s.data).map (fun l => (⟨l⟩ : String))

/-- Python `s.split()` (no separator): split on whitespace runs, dropping
empty tokens; fuelled so the definition is structural. -/
def wsSplitAux : Nat → List Char → List (List Char)
  | _, [] => []
  | 0, l => [l]
  | fuel + 1, c :: rest =>
    if c.isWhitespace then wsSplitAux fuel rest
    else
      (c :: rest.takeWhile (fun x => !x.isWhitespace)) ::
        wsSplitAux fuel (rest.dropWhile (fun x => !x.isWhitespace))

/-- Python `s.split()` on a character list. -/
def wsSplitL (l : List Char) : List (List Char) := wsSplitAux l.length l

/-- Python `[x.strip() for x in s.strip().split()]`. -/
def pyTokens (s : String) : List String :=
  (wsSplitL (pyStrip s.data)).map (fun w => (⟨pyStrip w⟩ : String))

/-- Python `str.isdigit()` (restricted to ASCII digits, the only ones the
scraped page can contain in the fields the code tests). -/
def isdigitS (s : String) : Bool := s.data ≠ [] && s.data.all Char.isDigit

/-- Python `int(s)`: optional surrounding whitespace, optional sign, decimal
digits (the underscore-grouping extension of Python 3 is not modelled; no
value in this system carries it). -/
def parseIntPy (s : String) : Option Int :=
  match pyStrip s.data with
  | [] => none
  | c :: rest =>
    if c = '-' then (parseDigits rest).map (fun n => -(n : Int))
    else if c = '+' then (parseDigits rest).map (fun n => (n : Int))
    else (parseDigits (c :: rest)).map (fun n => (n : Int))

/-- Decimal rendering `str(n)` of a natural number. -/
def natRepr (n : Nat) : String := ⟨natDigits n⟩

/-- Decimal rendering `str(i)` of a Python integer. -/
def intRepr (i : Int) : String :=
  if i < 0 then ⟨'-' :: natDigits i.natAbs⟩ else natRepr i.toNat

/-- Zero-pad a natural number to `k` digits (`"%04d"`-style). -/
def pad (k n : Nat) : List Char :=
  List.replicate (k - (natDigits n).length) '0' ++ natDigits n

/-! ### Calendar dates

Embedding of Python `datetime.date` values: construction is validated
(`datetime.MINYEAR = 1`, `MAXYEAR = 9999`, real month lengths with leap
years), comparison is lexicographic on (year, month, day), `str(d)` is the
zero-padded ISO form, and `strftime("%A")` is the English weekday name
(computed here by Zeller's congruence). -/

structure Date where
  year : Nat
  month : Nat
  day : Nat
deriving DecidableEq, Repr

def isLeap (y : Nat) : Bool := (y % 4 == 0 && y % 100 != 0) || y % 400 == 0

def daysInMonth (y m : Nat) : Nat :=
  if m = 2 then (if isLeap y then 29 else 28)
  else if m = 4 ∨ m = 6 ∨ m = 9 ∨ m = 11 then 30
  else 31

/-- The constraints `datetime.date(y, m, d)` enforces. -/
def validDate (y m d : Nat) : Bool :=
  1 ≤ y && y ≤ 9999 && 1 ≤ m && m ≤ 12 && 1 ≤ d && d ≤ daysInMonth y m

def Date.valid (dt : Date) : Bool := validDate dt.year dt.month dt.day

/-- Python `date.__lt__`: lexicographic on (year, month, day). -/
def Date.ltb (a b : Date) : Bool :=
  a.year < b.year ||
    (a.year == b.year &&
      (a.month < b.month || (a.month == b.month && a.day < b.day)))

/-- `datetime.strptime(s, "%Y-%m-%d").date()`: dash-separated digit groups
of at most 4/2/2 digits, validated as a calendar date. -/
def parseDateISO (s : String) : Option Date :=
  match splitChar '-' s.data with
  | [ys, ms, ds] =>
    if 1 ≤ ys.length ∧ ys.length ≤ 4 ∧ 1 ≤ ms.length ∧ ms.length ≤ 2 ∧
        1 ≤ ds.length ∧ ds.length ≤ 2 then
      match parseDigits ys, parseDigits ms, parseDigits ds with
      | some y, some m, some d =>
        if validDate y m d then some ⟨y, m, d⟩ else none
      | _, _, _ => none
    else none
  | _ => none

/-- `datetime.strptime(s, "%d/%m/%Y").date()`: slash-separated digit groups
of at most 2/2/4 digits, validated as a calendar date. -/
def parseDateDMY (s : String) : Option Date :=
  match splitChar '/' s.data with
  | [ds, ms, ys] =>
    if 1 ≤ ds.length ∧ ds.length ≤ 2 ∧ 1 ≤ ms.length ∧ ms.length ≤ 2 ∧
        1 ≤ ys.length ∧ ys.length ≤ 4 then
      match parseDigits ds, parseDigits ms, parseDigits ys with
      | some d, some m, some y =>
        if validDate y m d then some ⟨y, m, d⟩ else none
      | _, _, _ => none
    else none
  | _ => none

/-- `str(d)` on a `datetime.date`: zero-padded `YYYY-MM-DD`. -/
def dateRepr (dt : Date) : String :=
  ⟨pad 4 dt.year ++ '-' :: (pad 2 dt.month ++ '-' :: pad 2 dt.day)⟩

/-- `d.strftime("%Y-%m")`: zero-padded `YYYY-MM`. -/
def monthKey (dt : Date) : String :=
  ⟨pad 4 dt.year ++ '-' :: pad 2 dt.month⟩

/-- Zeller's congruence: 0 = Saturday, 1 = Sunday, …, 6 = Friday. -/
def zeller (dt : Date) : Nat :=
  let y := if dt.month ≤ 2 then dt.year - 1 else dt.year
  let m := if dt.month ≤ 2 then dt.month + 12 else dt.month
  (dt.day + (13 * (m + 1)) / 5 + y % 100 + y % 100 / 4 + y / 100 / 4 +
      5 * (y / 100)) % 7

/-- `d.strftime("%A")` in the C locale: the English weekday name. -/
def dayName (dt : Date) : String :=
  match zeller dt with
  | 0 => "Saturday"
  | 1 => "Sunday"
  | 2 => "Monday"
  | 3 => "Tuesday"
  | 4 => "Wednesday"
  | 5 => "Thursday"
  | _ => "Friday"

/-! ### The ledger file and the mirror store

The CSV ledger is a list of rows; a row is the list of its fields and the
empty row stands for a blank line (what `csv.reader` yields for one).  The
system state carries the ledger file (`none` = the file does not exist) and
the SQLite mirror table `resultados` (`none` = the table does not exist). -/

abbrev Row := List String

structure SysState where
  csv : Option (List Row)
  mirror : Option (List Row)
deriving DecidableEq

/-- The fixed header row written by `ler_ultimo_sorteio` when it creates the
ledger file. -/
def headerRow : Row :=
  ["DRAW_NUMBER", "DATE", "MONTH", "N1", "N2", "N3", "N4", "N5", "S1", "S2",
    "WINNERS", "TYPE"]

/-- The loop body of `ler_ultimo_sorteio` on an existing file: skip the
header, keep the last non-blank row, parse `int(row[0])` and
`strptime(row[1], "%Y-%m-%d")`.  Any failure in that body (a missing
header line, a missing field, an unparsable number or date) is caught by
the function's blanket `except Exception` handler, which prints the error
and returns `(0, None, None)`. -/
def lerFromFile (file : List Row) : Int × Option Date × Option Row :=
  match file with
  | [] => (0, none, none)
  | _hdr :: rows =>
    match (rows.filter (fun r => r != [])).getLast? with
    | none => (0, none, none)
    | some r =>
      match r[0]? >>= parseIntPy, r[1]? >>= parseDateISO with
      | some n, some dt => (n, some dt, some r)
      | _, _ => (0, none, none)

/-- `EuromilhoesDB.ler_ultimo_sorteio`: read the last recorded draw.  When
the file does not exist it is created with just the header row. -/
def ler_ultimo_sorteio (st : SysState) : (Int × Option Date × Option Row) × SysState :=
  match st.csv with
  | none => ((0, none, none), { st with csv := some [headerRow] })
  | some file => (lerFromFile file, st)

def readNumber (st : SysState) : Int := (ler_ultimo_sorteio st).1.1
def readDate (st : SysState) : Option Date := (ler_ultimo_sorteio st).1.2.1
def readRow (st : SysState) : Option Row := (ler_ultimo_sorteio st).1.2.2

/-- Normalisation `import_from_csv` applies to one data row:
`pd.to_datetime(df['DATE']).dt.strftime('%Y-%m-%d')` re-renders the `DATE`
field (the ledger stores ISO dates, which is the format this embedding
parses). -/
def normalizeRow (di : Nat) (r : Row) : Option Row :=
  match r[di]? with
  | none => none
  | some s => (parseDateISO s).map (fun dt => r.set di (dateRepr dt))

/-- The work of `import_from_csv` on the file contents: `pd.read_csv`
(blank lines skipped, first remaining row is the header), locate the
`DATE` column, normalise it.  `none` models any exception (empty file,
missing `DATE` column, unparsable date), which the function catches,
returning 0 without writing. -/
def importCore (file : List Row) : Option (Nat × List Row) :=
  match file.filter (fun r => r != []) with
  | [] => none
  | hdr :: rows =>
    match hdr.findIdx? (fun s => s == "DATE") with
    | none => none
    | some di =>
      match rows.mapM (normalizeRow di) with
      | none => none
      | some rows2 => some (rows.length, rows2)

/-- `EuromilhoesDB.import_from_csv`: rebuild the mirror table wholly from
the CSV (`df.to_sql('resultados', conn, if_exists='replace')`), returning
the number of rows imported; 0 (and no write) when the file is absent or
reading it raises. -/
def import_from_csv (st : SysState) : Nat × SysState :=
  match st.csv with
  | none => (0, st)
  | some file =>
    match importCore file with
    | none => (0, st)
    | some (n, tbl) => (n, { st with mirror := some tbl })

/-! ### The scraped page and the source extractor

The page is modelled by the outcome of the named lookups
`obter_resultados` performs with BeautifulSoup: the text of
`span.dataInfo`, the `li` texts (`get_text(strip=True)`) of `ul.colums`
inside `div.betMiddle.twocol.regPad`, and the `li.litleCol` texts of the
first `ul.colums` of the document. -/

structure BetMiddle where
  colums : Option (List String)
deriving DecidableEq

structure Page where
  dataInfo : Option String
  betMiddle : Option BetMiddle
  premio : Option (List String)
deriving DecidableEq

structure Response where
  status : Nat
  page : Page
deriving DecidableEq

/-- The extraction fault taxonomy (the code prints a distinct message and
returns `None` at each of these branches). -/
inductive FaultKind where
  | sourceUnavailable
  | missingHeader
  | missingResults
  | malformedResultFormat
deriving DecidableEq

/-- One parsing stage: the value, a printed-and-return-`None` fault, or an
uncaught Python exception. -/
inductive StageResult (α : Type) where
  | ok (a : α)
  | failed (k : FaultKind)
  | raised
deriving DecidableEq

/-- The scraped record `dados` built by `obter_resultados` (a Python list;
its shape is fixed, so it is modelled as a structure). -/
structure ScrapedData where
  sorteio_numero : Int
  data_sorteio : Date
  data_formatada : String
  numeros : List String
  estrelas : List String
  numero_vencedores : Int
  sorteio_tipo : String
deriving DecidableEq

/-- Serialisation of `dados` as `csv.writer.writerow` performs it:
`str()` of each element in order. -/
def ScrapedData.toRow (r : ScrapedData) : Row :=
  [intRepr r.sorteio_numero, dateRepr r.data_sorteio, r.data_formatada] ++
    r.numeros ++ r.estrelas ++ [intRepr r.numero_vencedores, r.sorteio_tipo]

/-- The draw-number-and-date block: `span.dataInfo` must exist
(else the fault branch), then
`int(t.split("Sorteio: ")[1].split("/")[0])` and
`strptime(t.split("Data do Sorteio - ")[1], "%d/%m/%Y")`; a missing
separator or unparsable number/date raises (uncaught `IndexError` /
`ValueError`). -/
def headerStage (p : Page) : StageResult (Int × Date) :=
  match p.dataInfo with
  | none => .failed .missingHeader
  | some t0 =>
    match (pySplitS (stripS t0) "Sorteio: ")[1]? with
    | none => .raised
    | some s1 =>
      match parseIntPy ((splitCharS s1 '/').headD "") with
      | none => .raised
      | some num =>
        match (pySplitS (stripS t0) "Data do Sorteio - ")[1]? with
        | none => .raised
        | some ds =>
          match parseDateDMY ds with
          | none => .raised
          | some dt => .ok (num, dt)

/-- The results block: `div.betMiddle` and its `ul.colums` must exist and
hold at least two `li`; the second one's text is split on `"+"` and must
give exactly two parts, whose whitespace tokens become the numbers and the
stars (their counts are not checked). -/
def resultsStage (p : Page) : StageResult (List String × List String) :=
  match p.betMiddle with
  | none => .failed .missingResults
  | some bm =>
    match bm.colums with
    | none => .failed .missingResults
    | some lis =>
      match lis[1]? with
      | none => .failed .missingResults
      | some texto =>
        match splitCharS texto '+' with
        | [nums, stars] => .ok (pyTokens nums, pyTokens stars)
        | _ => .failed .malformedResultFormat

/-- The winner-count block: first `ul.colums` of the page, its
`li.litleCol` items; absent or non-numeric text defaults to 0 (never a
fault). -/
def winnersStage (p : Page) : Int :=
  match p.premio with
  | none => 0
  | some cols =>
    match cols[0]? with
    | none => 0
    | some v0 =>
      let v := stripS v0
      if isdigitS v then ((parseDigits v.data).getD 0 : Nat) else 0

/-- Result of `obter_resultados`: the scraped record, a printed fault
(the function returns `None`), or an uncaught exception. -/
inductive ExtractResult where
  | success (d : ScrapedData)
  | failed (k : FaultKind)
  | raised
deriving DecidableEq

def ExtractResult.isFailure : ExtractResult → Bool
  | .success _ => false
  | _ => true

/-- `EuromilhoesDB.obter_resultados`: scrape the latest draw.  A non-200
status is the source-unavailable fault; then the three blocks run in the
order of the code, the category is `"Sexta-Feira"` exactly for a Friday
date and `"Terça-Feira"` for every other weekday, and the month key is
`strftime("%Y-%m")`. -/
def obter_resultados (resp : Response) : ExtractResult :=
  if resp.status = 200 then
    match headerStage resp.page with
    | .failed k => .failed k
    | .raised => .raised
    | .ok (num, dt) =>
      match resultsStage resp.page with
      | .failed k => .failed k
      | .raised => .raised
      | .ok (nums, stars) =>
        .success ⟨num, dt, monthKey dt, nums, stars, winnersStage resp.page,
          if dayName dt = "Friday" then "Sexta-Feira" else "Terça-Feira"⟩
  else .failed .sourceUnavailable

/-- `EuromilhoesDB.salvar_novo_sorteio`: append the serialised record to
the CSV file (mode `'a'` creates the file when absent). -/
def salvar_novo_sorteio (st : SysState) (dados : ScrapedData) : SysState :=
  { st with csv := some (st.csv.getD [] ++ [dados.toRow]) }

/-- Outcome of one reconciliation cycle (`atualizar_resultados` reports
these by printing; the embedding returns them). -/
inductive Outcome where
  | appended (d : ScrapedData)
  | alreadyCurrent (registro : Option Row)
  | failed (k : FaultKind)
  | raised
deriving DecidableEq

/-- The acceptance test of `atualizar_resultados`:
`ultima_data is None or novo_sorteio[1] > ultima_data`. -/
def aceitaNovo (ultima : Option Date) (nova : Date) : Bool :=
  match ultima with
  | none => true
  | some u => Date.ltb u nova

/-- `EuromilhoesDB.atualizar_resultados`: one reconciliation cycle — read
the last ledger record, scrape, and if the scrape produced a record whose
date is accepted, overwrite its draw number with `ultimo_sorteio + 1`,
append it and re-import the CSV into the mirror. -/
def atualizar_resultados (resp : Response) (st : SysState) : Outcome × SysState :=
  let rd := ler_ultimo_sorteio st
  match obter_resultados resp with
  | .success novo =>
    if aceitaNovo rd.1.2.1 novo.data_sorteio then
      let novo2 := { novo with sorteio_numero := rd.1.1 + 1 }
      (.appended novo2, (import_from_csv (salvar_novo_sorteio rd.2 novo2)).2)
    else (.alreadyCurrent rd.1.2.2, rd.2)
  | .failed k => (.failed k, rd.2)
  | .raised => (.raised, rd.2)

/-- A sequence of reconciliation cycles. -/
def runCycles (resps : List Response) (st : SysState) : SysState :=
  resps.foldl (fun s r => (atualizar_resultados r s).2) st

/-! ### Observations used by the statements -/

/-- The data rows of a ledger file (everything after the header line). -/
def ledgerRows (csv : Option (List Row)) : List Row := (csv.getD []).drop 1

/-- The parsed draw-number column of the ledger. -/
def numCol (st : SysState) : List (Option Int) :=
  (ledgerRows st.csv).map (fun r => r[0]? >>= parseIntPy)

/-- The results text the extractor reads: the text of the second `li` of
`ul.colums` inside `div.betMiddle`. -/
def liText2 (p : Page) : Option String :=
  p.betMiddle.bind (fun bm => bm.colums.bind (fun lis => lis[1]?))

/-- Occurrences of `'+'` in a results text. -/
def plusCount (s : String) : Nat := s.data.count '+'

/-- The main-number list of a successful extraction. -/
def extractNumeros : ExtractResult → Option (List String)
  | .success d => some d.numeros
  | _ => none

/-- The draw-category of a successful extraction. -/
def extractTipo : ExtractResult → Option String
  | .success d => some d.sorteio_tipo
  | _ => none

/-- The data rows carry the serialised draw numbers `1, …, k` in order. -/
def rowsNumbered (rows : List Row) (k : Nat) : Prop :=
  rows.map (fun r => r[0]?) =
    (List.range' 1 k).map (fun i => some (intRepr (i : Nat)))

/-- The last data row, when there is one, carries a serialised valid date
in its second field. -/
def goodLast (rows : List Row) : Prop :=
  rows = [] ∨ ∃ r dt, rows.getLast? = some r ∧ r[1]? = some (dateRepr dt) ∧
    dt.valid = true

/-- Invariant of the reconciliation loop: the ledger file exists, starts
with the header, has no blank data lines, its draw-number column is
`1, …, k`, and its last row's date round-trips. -/
def Inv (st : SysState) (k : Nat) : Prop :=
  ∃ rows, st.csv = some (headerRow :: rows) ∧
    rows.filter (fun r => r != []) = rows ∧
    rowsNumbered rows k ∧ goodLast rows

/-! ### Concrete fixtures, used to instantiate the theorems -/

/-- A well-formed scraped page: draw 42 of Friday 2024-05-17. -/
def pageGood : Page :=
  { dataInfo := some "Sorteio: 042/2024 Data do Sorteio - 17/05/2024"
  , betMiddle := some { colums := some ["decorativo", "5 12 23 34 45 + 2 9"] }
  , premio := some ["3"] }

def respGood : Response := ⟨200, pageGood⟩

/-- The record `obter_resultados` extracts from `pageGood`. -/
def recGood : ScrapedData :=
  ⟨42, ⟨2024, 5, 17⟩, "2024-05", ["5", "12", "23", "34", "45"], ["2", "9"], 3,
    "Sexta-Feira"⟩

/-- A well-formed page for Tuesday 2024-05-14 (the date already in
`stLedger`). -/
def pageEq : Page :=
  { dataInfo := some "Sorteio: 040/2024 Data do Sorteio - 14/05/2024"
  , betMiddle := some { colums := some ["decorativo", "1 2 3 4 5 + 6 7"] }
  , premio := some ["3"] }

def respEq : Response := ⟨200, pageEq⟩

def recEq : ScrapedData :=
  ⟨40, ⟨2024, 5, 14⟩, "2024-05", ["1", "2", "3", "4", "5"], ["6", "7"], 3,
    "Terça-Feira"⟩

/-- A page whose results text has no `"+"`. -/
def pageNoPlus : Page :=
  { dataInfo := some "Sorteio: 042/2024 Data do Sorteio - 17/05/2024"
  , betMiddle := some { colums := some ["decorativo", "1 2 3 4 5 6 7"] }
  , premio := some ["3"] }

/-- A page whose results text has one `"+"` but only three main numbers. -/
def pageShort : Page :=
  { dataInfo := some "Sorteio: 041/2024 Data do Sorteio - 13/05/2024"
  , betMiddle := some { colums := some ["decorativo", "1 2 3 + 4 5"] }
  , premio := some ["3"] }

def respShort : Response := ⟨200, pageShort⟩

def recShort : ScrapedData :=
  ⟨41, ⟨2024, 5, 13⟩, "2024-05", ["1", "2", "3"], ["4", "5"], 3, "Terça-Feira"⟩

/-- A well-formed page for Monday 2024-05-13. -/
def pageMon : Page :=
  { dataInfo := some "Sorteio: 041/2024 Data do Sorteio - 13/05/2024"
  , betMiddle := some { colums := some ["decorativo", "5 12 23 34 45 + 2 9"] }
  , premio := some ["3"] }

def respMon : Response := ⟨200, pageMon⟩

def recMon : ScrapedData :=
  ⟨41, ⟨2024, 5, 13⟩, "2024-05", ["5", "12", "23", "34", "45"], ["2", "9"], 3,
    "Terça-Feira"⟩

def dateMon : Date := ⟨2024, 5, 13⟩

/-- A response with a non-success HTTP status. -/
def resp500 : Response := ⟨500, pageGood⟩

/-- A valid ledger data row: draw 1 on 2024-05-14. -/
def row14 : Row :=
  ["1", "2024-05-14", "2024-05", "1", "2", "3", "4", "5", "6", "7", "0",
    "Terça-Feira"]

/-- A state whose ledger holds the header and `row14`. -/
def stLedger : SysState := ⟨some [headerRow, row14], none⟩

/-- A ledger whose final data row has an unparsable draw number. -/
def rowBadNum : Row :=
  ["abc", "2024-05-14", "2024-05", "1", "2", "3", "4", "5", "6", "7", "0",
    "Terça-Feira"]

def stBad : SysState := ⟨some [headerRow, rowBadNum], none⟩

/-- A ledger whose final data row has an unparsable date. -/
def rowBadDate : Row :=
  ["7", "2024-13-99", "2024-05", "1", "2", "3", "4", "5", "6", "7", "0",
    "Terça-Feira"]

def stBad2 : SysState := ⟨some [headerRow, rowBadDate], some [row14]⟩

/-! ### Decimal round-trip lemmas

What is written by `str()` is read back by `int()` and
`strptime("%Y-%m-%d")`: the facts the reconciliation loop relies on. -/

theorem digitChar_isDigit {d : Nat} (h : d < 10) :
    (Nat.digitChar d).isDigit = true := by
  interval_cases d <;> decide

theorem digitChar_toNat {d : Nat} (h : d < 10) :
    (Nat.digitChar d).toNat - 48 = d := by
  interval_cases d <;> decide

theorem natDigitsAux_ne_nil {fuel n : Nat} (h : n < fuel) :
    natDigitsAux fuel n ≠ [] := by
  match fuel with
  | f + 1 =>
    rw [natDigitsAux]
    split
    · simp
    · simp

theorem natDigitsAux_all_digit {fuel n : Nat} (h : n < fuel) :
    (natDigitsAux fuel n).all Char.isDigit = true := by
  induction fuel generalizing n with
  | zero => omega
  | succ f ih =>
    rw [natDigitsAux]
    split
    · simp [digitChar_isDigit, *]
    · have hn : ¬ n < 10 := by assumption
      have hd : n / 10 < f := by
        have h1 : n / 10 < n := Nat.div_lt_self (by omega) (by omega)
        omega
      rw [List.all_append]
      simp [ih hd, digitChar_isDigit (Nat.mod_lt n (by omega))]

theorem foldDigits_append_one (xs : List Char) (c : Char) :
    foldDigits (xs ++ [c]) = foldDigits xs * 10 + (c.toNat - 48) := by
  simp [foldDigits, List.foldl_append]

theorem foldDigits_natDigitsAux {fuel n : Nat} (h : n < fuel) :
    foldDigits (natDigitsAux fuel n) = n := by
  induction fuel generalizing n with
  | zero => omega
  | succ f ih =>
    rw [natDigitsAux]
    split
    · next h10 =>
      simp [foldDigits, digitChar_toNat h10]
    · next h10 =>
      have hd : n / 10 < f := by
        have h1 : n / 10 < n := Nat.div_lt_self (by omega) (by omega)
        omega
      rw [foldDigits_append_one, ih hd, digitChar_toNat (Nat.mod_lt n (by omega))]
      omega

theorem parseDigits_natDigits (n : Nat) : parseDigits (natDigits n) = some n := by
  rw [parseDigits, if_pos]
  · rw [natDigits, foldDigits_natDigitsAux (Nat.lt_succ_self n)]
  · exact ⟨natDigitsAux_ne_nil (Nat.lt_succ_self n),
      natDigitsAux_all_digit (Nat.lt_succ_self n)⟩

theorem natDigitsAux_length_le {fuel n k : Nat} (h : n < fuel)
    (hk : 1 ≤ k) (hn : n < 10 ^ k) : (natDigitsAux fuel n).length ≤ k := by
  induction fuel generalizing n k with
  | zero => omega
  | succ f ih =>
    rw [natDigitsAux]
    split
    · simpa using hk
    · next h10 =>
      have hd : n / 10 < f := by
        have h1 : n / 10 < n := Nat.div_lt_self (by omega) (by omega)
        omega
      have hk1 : 1 ≤ k - 1 := by
        rcases Nat.eq_or_lt_of_le hk with h1 | h1
        · exfalso; rw [← h1] at hn; simp at hn; omega
        · omega
      have hnk : n / 10 < 10 ^ (k - 1) := by
        have hpow : 10 ^ k = 10 * 10 ^ (k - 1) := by
          conv_lhs => rw [show k = (k - 1) + 1 by omega]
          rw [Nat.pow_succ]
          ring
        rw [hpow] at hn
        exact Nat.div_lt_of_lt_mul hn
      have := ih hd hk1 hnk
      rw [List.length_append]
      simp only [List.length_cons, List.length_nil]
      omega

theorem natDigits_length_le {n k : Nat} (hk : 1 ≤ k) (hn : n < 10 ^ k) :
    (natDigits n).length ≤ k :=
  natDigitsAux_length_le (Nat.lt_succ_self n) hk hn

/-- A member of an all-digit list is a digit. -/
theorem all_digit_mem {cs : List Char} (h : cs.all Char.isDigit = true)
    {c : Char} (hc : c ∈ cs) : c.isDigit = true := by
  rw [List.all_eq_true] at h
  exact h c hc

theorem isDigit_not_whitespace {c : Char} (h : c.isDigit = true) :
    c.isWhitespace = false := by
  by_contra hws
  rw [Bool.not_eq_false, Char.isWhitespace] at hws
  simp only [Bool.or_eq_true, decide_eq_true_eq] at hws
  rcases hws with ((rfl | rfl) | rfl) | rfl <;> exact absurd h (by decide)

theorem dropWhile_eq_self_of_all {p : Char → Bool} {l : List Char}
    (h : ∀ c ∈ l, p c = false) : l.dropWhile p = l := by
  cases l with
  | nil => rfl
  | cons c cs =>
    rw [List.dropWhile_cons, h c (List.mem_cons_self c cs)]
    simp

theorem pyStrip_all_digit {cs : List Char} (h : cs.all Char.isDigit = true) :
    pyStrip cs = cs := by
  have hws : ∀ c ∈ cs, c.isWhitespace = false := fun c hc =>
    isDigit_not_whitespace (all_digit_mem h hc)
  rw [pyStrip, dropWhile_eq_self_of_all hws, dropWhile_eq_self_of_all
    (fun c hc => hws c (List.mem_reverse.mp hc)), List.reverse_reverse]

theorem parseIntPy_natRepr (n : Nat) : parseIntPy (natRepr n) = some (n : Int) := by
  have hne : natDigits n ≠ [] := natDigitsAux_ne_nil (Nat.lt_succ_self n)
  have hall : (natDigits n).all Char.isDigit = true :=
    natDigitsAux_all_digit (Nat.lt_succ_self n)
  obtain ⟨c, rest, hcons⟩ := List.exists_cons_of_ne_nil hne
  have hstrip : pyStrip (natRepr n).data = c :: rest := by
    show pyStrip (natDigits n) = c :: rest
    rw [pyStrip_all_digit hall, hcons]
  have hcdig : c.isDigit = true :=
    all_digit_mem hall (hcons ▸ List.mem_cons_self c rest)
  have hcm : c ≠ '-' := by rintro rfl; exact absurd hcdig (by decide)
  have hcp : c ≠ '+' := by rintro rfl; exact absurd hcdig (by decide)
  simp only [parseIntPy, hstrip]
  rw [if_neg hcm, if_neg hcp, ← hcons, parseDigits_natDigits]
  rfl

theorem intRepr_ofNat (n : Nat) : intRepr (n : Nat) = natRepr n := by
  rw [intRepr, if_neg (by omega)]
  simp

theorem parseIntPy_intRepr_ofNat (n : Nat) :
    parseIntPy (intRepr (n : Nat)) = some (n : Int) := by
  rw [intRepr_ofNat, parseIntPy_natRepr]

theorem splitChar_ne_nil (sep : Char) (l : List Char) : splitChar sep l ≠ [] := by
  cases l with
  | nil => simp [splitChar]
  | cons c rest =>
    rw [splitChar]
    split
    · simp
    · split <;> simp

theorem length_splitChar (sep : Char) (l : List Char) :
    (splitChar sep l).length = l.count sep + 1 := by
  induction l with
  | nil => simp [splitChar]
  | cons c rest ih =>
    rw [splitChar]
    split
    · next hc =>
      subst hc
      simp [List.count_cons, ih]
    · next hc =>
      rcases hs : splitChar sep rest with - | ⟨p, ps⟩
      · exact absurd hs (splitChar_ne_nil sep rest)
      · have : (splitChar sep rest).length = rest.count sep + 1 := ih
        rw [hs] at this
        simp only [List.length_cons] at this ⊢
        rw [List.count_cons]
        simp [hc, this]

theorem splitChar_of_not_mem {sep : Char} {a : List Char} (h : sep ∉ a) :
    splitChar sep a = [a] := by
  induction a with
  | nil => rfl
  | cons c rest ih =>
    have hc : ¬ c = sep := fun hcs => h (hcs ▸ List.mem_cons_self c rest)
    rw [splitChar, if_neg hc, ih (fun hm => h (List.mem_cons_of_mem c hm))]

theorem splitChar_append {sep : Char} {a : List Char} (b : List Char)
    (h : sep ∉ a) : splitChar sep (a ++ sep :: b) = a :: splitChar sep b := by
  induction a with
  | nil => simp [splitChar]
  | cons c rest ih =>
    have hc : ¬ c = sep := fun hcs => h (hcs ▸ List.mem_cons_self c rest)
    rw [List.cons_append, splitChar, if_neg hc,
      ih (fun hm => h (List.mem_cons_of_mem c hm))]

theorem foldDigits_pad (k n : Nat) : foldDigits (pad k n) = n := by
  rw [pad, foldDigits, List.foldl_append]
  have h0 : List.foldl (fun a c => a * 10 + (c.toNat - 48)) 0
      (List.replicate (k - (natDigits n).length) '0') = 0 := by
    generalize (k - (natDigits n).length) = j
    induction j with
    | zero => rfl
    | succ j ih =>
      rw [List.replicate_succ, List.foldl_cons]
      exact ih
  rw [h0]
  exact foldDigits_natDigitsAux (Nat.lt_succ_self n)

theorem pad_all_digit (k n : Nat) : (pad k n).all Char.isDigit = true := by
  rw [pad, List.all_append, Bool.and_eq_true]
  refine ⟨?_, natDigitsAux_all_digit (Nat.lt_succ_self n)⟩
  rw [List.all_eq_true]
  intro c hc
  rw [List.eq_of_mem_replicate hc]
  decide

theorem pad_ne_nil (k n : Nat) : pad k n ≠ [] := by
  rw [pad]
  intro hnil
  rcases List.append_eq_nil.mp hnil with ⟨-, h2⟩
  exact natDigitsAux_ne_nil (Nat.lt_succ_self n) h2

theorem parseDigits_pad (k n : Nat) : parseDigits (pad k n) = some n := by
  rw [parseDigits, if_pos ⟨pad_ne_nil k n, pad_all_digit k n⟩, foldDigits_pad]

theorem dash_not_mem_pad (k n : Nat) : '-' ∉ pad k n := by
  intro hm
  exact absurd (all_digit_mem (pad_all_digit k n) hm) (by decide)

theorem pad_length {k n : Nat} (h : (natDigits n).length ≤ k) :
    (pad k n).length = k := by
  rw [pad, List.length_append, List.length_replicate]
  omega

theorem daysInMonth_le (y m : Nat) : daysInMonth y m ≤ 31 := by
  rw [daysInMonth]
  split
  · split <;> omega
  · split <;> omega

theorem parseDateISO_dateRepr {dt : Date} (h : dt.valid = true) :
    parseDateISO (dateRepr dt) = some dt := by
  obtain ⟨y, m, d⟩ := dt
  have hv : validDate y m d = true := h
  have hb : 1 ≤ y ∧ y ≤ 9999 ∧ 1 ≤ m ∧ m ≤ 12 ∧ 1 ≤ d ∧ d ≤ 31 := by
    have hdm : daysInMonth y m ≤ 31 := daysInMonth_le y m
    simp only [validDate, Bool.and_eq_true, decide_eq_true_eq] at hv
    omega
  have h4 : (10 : Nat) ^ 4 = 10000 := by norm_num
  have h2 : (10 : Nat) ^ 2 = 100 := by norm_num
  have hly : (natDigits y).length ≤ 4 := natDigits_length_le (by omega) (by omega)
  have hlm : (natDigits m).length ≤ 2 := natDigits_length_le (by omega) (by omega)
  have hld : (natDigits d).length ≤ 2 := natDigits_length_le (by omega) (by omega)
  have hsplit : splitChar '-' (dateRepr ⟨y, m, d⟩).data =
      [pad 4 y, pad 2 m, pad 2 d] := by
    show splitChar '-' (pad 4 y ++ '-' :: (pad 2 m ++ '-' :: pad 2 d)) = _
    rw [splitChar_append _ (dash_not_mem_pad 4 y),
      splitChar_append _ (dash_not_mem_pad 2 m),
      splitChar_of_not_mem (dash_not_mem_pad 2 d)]
  simp only [parseDateISO, hsplit]
  rw [pad_length hly, pad_length hlm, pad_length hld, if_pos (by omega),
    parseDigits_pad, parseDigits_pad, parseDigits_pad]
  simp [hv]

/-! ### Structural lemmas about the store operations -/

/-- `import_from_csv` never touches the CSV file. -/
theorem import_from_csv_csv (st : SysState) :
    ((import_from_csv st).2).csv = st.csv := by
  rw [import_from_csv]
  cases hc : st.csv with
  | none => simp [hc]
  | some file =>
    cases hcore : importCore file with
    | none => simp [hc, hcore]
    | some p => cases p with | mk n tbl => simp [hc, hcore]

/-- Reading the last record never touches the mirror, and never changes
the data rows of the ledger (at most it creates the header-only file). -/
theorem ler_preserves (st : SysState) :
    ledgerRows (((ler_ultimo_sorteio st).2).csv) = ledgerRows st.csv ∧
    ((ler_ultimo_sorteio st).2).mirror = st.mirror := by
  cases hc : st.csv <;> simp [ler_ultimo_sorteio, hc, ledgerRows]

/-- On an existing file, reading the last record changes nothing at all. -/
theorem ler_state_of_some {st : SysState} {file : List Row}
    (h : st.csv = some file) : (ler_ultimo_sorteio st).2 = st := by
  rw [ler_ultimo_sorteio, h]

/-- Reading on an existing file returns `lerFromFile` of its contents. -/
theorem ler_read_of_some {st : SysState} {file : List Row}
    (h : st.csv = some file) :
    (ler_ultimo_sorteio st).1 = lerFromFile file := by
  rw [ler_ultimo_sorteio, h]

/-! ### Inversion lemmas for the source extractor -/

theorem parseDateDMY_valid {s : String} {dt : Date}
    (h : parseDateDMY s = some dt) : dt.valid = true := by
  rw [parseDateDMY] at h
  split at h
  · split at h
    · split at h
      · split at h
        · next hv =>
          injection h with h2
          subst h2
          exact hv
        · exact absurd h (by simp)
      · exact absurd h (by simp)
    · exact absurd h (by simp)
  · exact absurd h (by simp)

theorem headerStage_ok_valid {p : Page} {num : Int} {dt : Date}
    (h : headerStage p = .ok (num, dt)) : dt.valid = true := by
  rw [headerStage] at h
  split at h
  · exact absurd h (by simp)
  · split at h
    · exact absurd h (by simp)
    · split at h
      · exact absurd h (by simp)
      · split at h
        · exact absurd h (by simp)
        · split at h
          · exact absurd h (by simp)
          · next hdmy =>
            injection h with h2
            injection h2 with h3 h4
            subst h4
            exact parseDateDMY_valid hdmy

/-- Full inversion of a successful extraction. -/
theorem obter_success_elim {resp : Response} {d : ScrapedData}
    (h : obter_resultados resp = .success d) :
    resp.status = 200 ∧ ∃ num dt nums stars,
      headerStage resp.page = .ok (num, dt) ∧
      resultsStage resp.page = .ok (nums, stars) ∧
      d = ⟨num, dt, monthKey dt, nums, stars, winnersStage resp.page,
        if dayName dt = "Friday" then "Sexta-Feira" else "Terça-Feira"⟩ := by
  rw [obter_resultados] at h
  split at h
  · next h200 =>
    refine ⟨h200, ?_⟩
    rcases hh : headerStage resp.page with ⟨num, dt⟩ | k | -
    · simp only [hh] at h
      rcases hr : resultsStage resp.page with ⟨nums, stars⟩ | k | -
      · simp only [hr] at h
        injection h with h2
        exact ⟨num, dt, nums, stars, rfl, rfl, h2.symm⟩
      · simp only [hr] at h; exact absurd h (by simp)
      · simp only [hr] at h; exact absurd h (by simp)
    · simp only [hh] at h; exact absurd h (by simp)
    · simp only [hh] at h; exact absurd h (by simp)
  · exact absurd h (by simp)

/-- A record the extractor hands back always carries a valid date (it was
parsed by `strptime`). -/
theorem obter_success_valid {resp : Response} {d : ScrapedData}
    (h : obter_resultados resp = .success d) : d.data_sorteio.valid = true := by
  obtain ⟨-, num, dt, nums, stars, hh, -, hd⟩ := obter_success_elim h
  subst hd
  exact headerStage_ok_valid hh

/-- Inversion of a successful results block. -/
theorem resultsStage_ok_elim {p : Page} {nums stars : List String}
    (h : resultsStage p = .ok (nums, stars)) :
    ∃ t a b, liText2 p = some t ∧ splitCharS t '+' = [a, b] ∧
      nums = pyTokens a ∧ stars = pyTokens b := by
  rw [resultsStage] at h
  rcases hbm : p.betMiddle with - | bm
  · simp only [hbm] at h; exact absurd h (by simp)
  · simp only [hbm] at h
    rcases hcol : bm.colums with - | lis
    · simp only [hcol] at h; exact absurd h (by simp)
    · simp only [hcol] at h
      rcases ht : lis[1]? with - | t
      · simp only [ht] at h; exact absurd h (by simp)
      · simp only [ht] at h
        rcases hsp : splitCharS t '+' with - | ⟨a, rest⟩
        · simp only [hsp] at h; exact absurd h (by simp)
        · rcases rest with - | ⟨b, rest2⟩
          · simp only [hsp] at h; exact absurd h (by simp)
          · rcases rest2 with - | ⟨x, rest3⟩
            · simp only [hsp] at h
              injection h with h2
              injection h2 with hn hs
              exact ⟨t, a, b, by simp [liText2, hbm, hcol, ht],
                hsp, hn.symm, hs.symm⟩
            · simp only [hsp] at h; exact absurd h (by simp)

theorem splitCharS_ne_nil (s : String) (sep : Char) : splitCharS s sep ≠ [] := by
  rw [splitCharS]
  simp [splitChar_ne_nil]

/-- When the earlier lookups succeed but the `"+"`-split does not give
exactly two parts, the results block faults as malformed. -/
theorem resultsStage_malformed {p : Page} {t : String}
    (ht : liText2 p = some t) (hsp : (splitCharS t '+').length ≠ 2) :
    resultsStage p = .failed .malformedResultFormat := by
  rcases hbm : p.betMiddle with - | bm
  · rw [liText2, hbm] at ht; exact absurd ht (by simp)
  · rcases hcol : bm.colums with - | lis
    · rw [liText2, hbm] at ht
      simp only [Option.some_bind, hcol] at ht
      exact absurd ht (by simp)
    · rw [liText2, hbm] at ht
      simp only [Option.some_bind, hcol] at ht
      rw [resultsStage]
      simp only [hbm, hcol, ht]
      rcases hs : splitCharS t '+' with - | ⟨a, rest⟩
      · exact absurd hs (splitCharS_ne_nil t '+')
      · rcases rest with - | ⟨b, rest2⟩
        · simp only [hs]
        · rcases rest2 with - | ⟨x, rest3⟩
          · rw [hs] at hsp; simp at hsp
          · simp only [hs]

/-! ### The reconciliation-loop invariant -/

theorem toRow_get0 (d : ScrapedData) :
    (ScrapedData.toRow d)[0]? = some (intRepr d.sorteio_numero) := rfl

theorem toRow_get1 (d : ScrapedData) :
    (ScrapedData.toRow d)[1]? = some (dateRepr d.data_sorteio) := rfl

theorem toRow_ne_nil (d : ScrapedData) :
    (ScrapedData.toRow d != []) = true := by
  simp [ScrapedData.toRow]

/-- What `lerFromFile` returns on a ledger satisfying the invariant. -/
theorem lerFromFile_inv {rows : List Row} {k : Nat}
    (hfilt : rows.filter (fun r => r != []) = rows)
    (hnum : rowsNumbered rows k)
    (hlast : goodLast rows) :
    (k = 0 ∧ rows = [] ∧ lerFromFile (headerRow :: rows) = (0, none, none)) ∨
    (0 < k ∧ ∃ r dt, rows.getLast? = some r ∧ dt.valid = true ∧
      lerFromFile (headerRow :: rows) = ((k : Int), some dt, some r)) := by
  rw [rowsNumbered] at hnum
  cases k with
  | zero =>
    left
    have hrows : rows = [] := by
      have hl := congrArg List.length hnum
      simpa using hl
    subst hrows
    exact ⟨rfl, rfl, rfl⟩
  | succ j =>
    right
    refine ⟨Nat.succ_pos j, ?_⟩
    have hlen : rows.length = j + 1 := by
      have hl := congrArg List.length hnum
      simpa using hl
    have hne : rows ≠ [] := by
      intro h0; rw [h0] at hlen; simp at hlen
    obtain ⟨r, hr⟩ : ∃ r, rows.getLast? = some r := by
      cases hg : rows.getLast? with
      | none => exact absurd (List.getLast?_eq_none_iff.mp hg) hne
      | some r => exact ⟨r, rfl⟩
    have hr0 : r[0]? = some (intRepr ((1 + j : Nat))) := by
      have h1 : (rows.map (fun r => r[0]?)).getLast? =
          rows.getLast?.map (fun r => r[0]?) := List.getLast?_map _ rows
      rw [hnum, hr, List.range'_concat] at h1
      simp at h1
      exact h1.symm
    rcases hlast with hnil | ⟨r2, dt, hr2, hr21, hdtv⟩
    · exact absurd hnil hne
    · rw [hr] at hr2
      injection hr2 with hr2e
      subst hr2e
      refine ⟨r, dt, hr, hdtv, ?_⟩
      show (match (rows.filter (fun r => r != [])).getLast? with
        | none => ((0 : Int), none, none)
        | some r =>
          match r[0]? >>= parseIntPy, r[1]? >>= parseDateISO with
          | some n, some dt => (n, some dt, some r)
          | _, _ => ((0 : Int), none, none)) =
        (((j + 1 : Nat) : Int), some dt, some r)
      rw [hfilt, hr]
      have hcast : ((1 + j : Nat) : Int) = ((j + 1 : Nat) : Int) := by
        push_cast; ring
      have hp : parseIntPy (intRepr ((j : Int) + 1)) = some ((j : Int) + 1) := by
        have h0 := parseIntPy_intRepr_ofNat (j + 1)
        push_cast at h0
        exact h0
      simp [hr0, hr21, hp, parseDateISO_dateRepr hdtv, hcast]

/-- The invariant holds for the freshly created header-only ledger. -/
theorem inv_init (m : Option (List Row)) : Inv ⟨some [headerRow], m⟩ 0 :=
  ⟨[], rfl, rfl, by simp [rowsNumbered], Or.inl rfl⟩

/-- Appending an accepted record and re-importing preserves the invariant,
with the row count increased by one. -/
theorem inv_append {st : SysState} {rows : List Row} {k : Nat}
    (hcsv : st.csv = some (headerRow :: rows))
    (hfilt : rows.filter (fun r => r != []) = rows)
    (hnum : rowsNumbered rows k)
    (novo : ScrapedData) (hvalid : novo.data_sorteio.valid = true) :
    Inv ((import_from_csv (salvar_novo_sorteio st
      { novo with sorteio_numero := (k : Int) + 1 })).2) (k + 1) := by
  set novo2 : ScrapedData := { novo with sorteio_numero := (k : Int) + 1 } with hnovo2
  have hcsv2 : (salvar_novo_sorteio st novo2).csv =
      some (headerRow :: (rows ++ [novo2.toRow])) := by
    rw [salvar_novo_sorteio, hcsv]
    simp
  refine ⟨rows ++ [novo2.toRow], ?_, ?_, ?_, ?_⟩
  · rw [import_from_csv_csv, hcsv2]
  · rw [List.filter_append, hfilt]
    simp [toRow_ne_nil]
  · rw [rowsNumbered, List.map_append, List.range'_concat]
    rw [rowsNumbered] at hnum
    rw [hnum, List.map_append]
    congr 1
    simp only [List.map_cons, List.map_nil, toRow_get0]
    have hc2 : ((1 + 1 * k : Nat) : Int) = (k : Int) + 1 := by
      push_cast; ring
    rw [hc2]
  · right
    refine ⟨novo2.toRow, novo.data_sorteio, ?_, ?_, hvalid⟩
    · rw [List.getLast?_concat]
    · rw [toRow_get1]

/-- One reconciliation cycle preserves the invariant (the count grows by
one exactly when a record is accepted). -/
theorem inv_step (resp : Response) {st : SysState} {k : Nat} (h : Inv st k) :
    Inv ((atualizar_resultados resp st).2) k ∨
      Inv ((atualizar_resultados resp st).2) (k + 1) := by
  obtain ⟨rows, hcsv, hfilt, hnum, hlast⟩ := h
  have hst2 : (ler_ultimo_sorteio st).2 = st := ler_state_of_some hcsv
  have hread : (ler_ultimo_sorteio st).1 = lerFromFile (headerRow :: rows) :=
    ler_read_of_some hcsv
  rw [atualizar_resultados]
  cases hobt : obter_resultados resp with
  | failed kk => rw [hst2]; exact Or.inl ⟨rows, hcsv, hfilt, hnum, hlast⟩
  | raised => rw [hst2]; exact Or.inl ⟨rows, hcsv, hfilt, hnum, hlast⟩
  | success novo =>
    simp only []
    rcases lerFromFile_inv hfilt hnum hlast with ⟨hk0, hrows0, hler⟩ |
        ⟨hkpos, r, dt, hr, hdtv, hler⟩
    · rw [hread, hler]
      simp only [aceitaNovo, if_pos]
      rw [hst2]
      right
      subst hk0
      have : ((0 : Int) + 1) = ((0 : Nat) : Int) + 1 := by norm_num
      rw [this]
      exact inv_append hcsv hfilt hnum novo (obter_success_valid hobt)
    · rw [hread, hler]
      cases hacc : Date.ltb dt novo.data_sorteio with
      | false =>
        simp only [aceitaNovo, hacc, if_neg, Bool.false_eq_true,
          not_false_eq_true]
        rw [hst2]
        exact Or.inl ⟨rows, hcsv, hfilt, hnum, hlast⟩
      | true =>
        simp only [aceitaNovo, hacc, if_pos]
        rw [hst2]
        right
        exact inv_append hcsv hfilt hnum novo (obter_success_valid hobt)

/-- The invariant is preserved by any sequence of cycles. -/
theorem inv_run (resps : List Response) {st : SysState} {k : Nat}
    (h : Inv st k) : ∃ j, Inv (runCycles resps st) j := by
  induction resps generalizing st k with
  | nil => exact ⟨k, h⟩
  | cons r rest ih =>
    rw [runCycles, List.foldl_cons]
    rcases inv_step r h with h2 | h2
    · exact ih h2
    · exact ih h2

/-- The parsed draw-number column of a ledger satisfying the invariant. -/
theorem numCol_of_inv {st : SysState} {k : Nat} (h : Inv st k) :
    numCol st = (List.range' 1 k).map (fun i => some ((i : Nat) : Int)) := by
  obtain ⟨rows, hcsv, hfilt, hnum, hlast⟩ := h
  rw [numCol, hcsv]
  show (((headerRow :: rows).drop 1).map (fun r => r[0]? >>= parseIntPy)) = _
  rw [List.drop_one, List.tail_cons]
  rw [rowsNumbered] at hnum
  have hmm : (rows.map (fun r => r[0]?)).map (fun o => o >>= parseIntPy) =
      rows.map (fun r => r[0]? >>= parseIntPy) := List.map_map _ _ _
  rw [← hmm, hnum, List.map_map]
  apply List.map_congr_left
  intro i hi
  simp [parseIntPy_intRepr_ofNat]

/-! ### Computation of one reconciliation cycle -/

theorem atualizar_of_success {resp : Response} {st : SysState}
    {novo : ScrapedData} (h : obter_resultados resp = .success novo) :
    atualizar_resultados resp st =
      if aceitaNovo (readDate st) novo.data_sorteio then
        (.appended { novo with sorteio_numero := readNumber st + 1 },
          (import_from_csv (salvar_novo_sorteio (ler_ultimo_sorteio st).2
            { novo with sorteio_numero := readNumber st + 1 })).2)
      else (.alreadyCurrent (readRow st), (ler_ultimo_sorteio st).2) := by
  rw [atualizar_resultados, h]
  rfl

theorem atualizar_of_failed {resp : Response} {st : SysState} {k : FaultKind}
    (h : obter_resultados resp = .failed k) :
    atualizar_resultados resp st = (.failed k, (ler_ultimo_sorteio st).2) := by
  rw [atualizar_resultados, h]

theorem atualizar_of_raised {resp : Response} {st : SysState}
    (h : obter_resultados resp = .raised) :
    atualizar_resultados resp st = (.raised, (ler_ultimo_sorteio st).2) := by
  rw [atualizar_resultados, h]

/-- A cycle started on a missing ledger file behaves exactly as one started
on the freshly created header-only file. -/
theorem atualizar_none_eq (resp : Response) (m : Option (List Row)) :
    atualizar_resultados resp ⟨none, m⟩ =
      atualizar_resultados resp ⟨some [headerRow], m⟩ := rfl

/-! ### The claims -/

/-- C1: for every reconciliation cycle in which fetching succeeds, the
scraped record is accepted (appended) if and only if the ledger's last date
is absent or the scraped record's date is strictly later; otherwise the
outcome is `AlreadyCurrent` and the state is exactly the state after the
read — nothing is appended, whatever draw number the page reported. -/
theorem c1_date_gated_acceptance (resp : Response) (st : SysState)
    (novo : ScrapedData) (h : obter_resultados resp = .success novo) :
    ((∃ r, (atualizar_resultados resp st).1 = .appended r) ↔
      (readDate st = none ∨
        ∃ u, readDate st = some u ∧ Date.ltb u novo.data_sorteio = true)) ∧
    (∀ u, readDate st = some u → Date.ltb u novo.data_sorteio = false →
      (atualizar_resultados resp st).1 = .alreadyCurrent (readRow st) ∧
      (atualizar_resultados resp st).2 = (ler_ultimo_sorteio st).2) := by
  rw [atualizar_of_success h]
  cases hacc : aceitaNovo (readDate st) novo.data_sorteio with
  | true =>
    rw [if_pos rfl]
    constructor
    · constructor
      · intro _hex
        cases hrd : readDate st with
        | none => exact Or.inl rfl
        | some u =>
          rw [hrd] at hacc
          exact Or.inr ⟨u, rfl, hacc⟩
      · intro _hrhs
        exact ⟨{ novo with sorteio_numero := readNumber st + 1 }, rfl⟩
    · intro u hrd hlt
      rw [hrd] at hacc
      rw [show aceitaNovo (some u) novo.data_sorteio =
        Date.ltb u novo.data_sorteio from rfl] at hacc
      rw [hacc] at hlt
      cases hlt
  | false =>
    rw [if_neg Bool.false_ne_true]
    constructor
    · constructor
      · rintro ⟨r, hr⟩
        cases hr
      · intro hrhs
        rcases hrhs with hrd | ⟨u, hrd, hlt⟩
        · rw [hrd] at hacc
          cases hacc
        · rw [hrd] at hacc
          rw [show aceitaNovo (some u) novo.data_sorteio =
            Date.ltb u novo.data_sorteio from rfl] at hacc
          rw [hlt] at hacc
          cases hacc
    · intro u hrd hlt
      exact ⟨rfl, rfl⟩

/-- C1 witness: with a ledger whose last date is 2024-05-14 and a scraped
record of the same date, the cycle is `AlreadyCurrent` and mutates
nothing. -/
theorem c1_witness :
    (atualizar_resultados respEq stLedger).1 =
      .alreadyCurrent (readRow stLedger) ∧
    (atualizar_resultados respEq stLedger).2 = (ler_ultimo_sorteio stLedger).2 :=
  (c1_date_gated_acceptance respEq stLedger recEq (by decide)).2
    ⟨2024, 5, 14⟩ (by decide) (by decide)

/-- C3: when the extractor fails in any way (a printed fault or an uncaught
exception), the cycle leaves the ledger's data rows and the mirror exactly
as they were — no append, no rebuild — and a printed fault is surfaced as
`Failed` with the same kind. -/
theorem c3_fault_aborts (resp : Response) (st : SysState)
    (h : (obter_resultados resp).isFailure = true) :
    ledgerRows (((atualizar_resultados resp st).2).csv) = ledgerRows st.csv ∧
    ((atualizar_resultados resp st).2).mirror = st.mirror ∧
    (∀ k, obter_resultados resp = .failed k →
      (atualizar_resultados resp st).1 = .failed k) := by
  cases hobt : obter_resultados resp with
  | success d =>
    rw [hobt] at h
    exact absurd h (by simp [ExtractResult.isFailure])
  | failed k =>
    rw [atualizar_of_failed hobt]
    refine ⟨(ler_preserves st).1, (ler_preserves st).2, ?_⟩
    intro k2 h2
    injection h2 with h3
    rw [h3]
  | raised =>
    rw [atualizar_of_raised hobt]
    refine ⟨(ler_preserves st).1, (ler_preserves st).2, ?_⟩
    intro k2 h2
    cases h2

/-- C3 witness: a non-200 response against a one-row ledger leaves ledger
and mirror untouched and surfaces `SourceUnavailable`. -/
theorem c3_witness :
    ledgerRows (((atualizar_resultados resp500 stLedger).2).csv) =
      ledgerRows stLedger.csv ∧
    ((atualizar_resultados resp500 stLedger).2).mirror = stLedger.mirror ∧
    (atualizar_resultados resp500 stLedger).1 = .failed .sourceUnavailable := by
  obtain ⟨h1, h2, h3⟩ := c3_fault_aborts resp500 stLedger (by decide)
  exact ⟨h1, h2, h3 .sourceUnavailable (by decide)⟩

/-- C4 counterexample: on a ledger whose final data row has the unparsable
draw number `"abc"`, `ler_ultimo_sorteio` returns the empty-ledger result
`(0, absent, absent)` with the state unchanged — the claimed hard
`LedgerCorrupt` fault is not surfaced (the code catches the exception and
only prints it). -/
theorem c4_counterexample :
    (rowBadNum[0]? >>= parseIntPy) = none ∧
    ler_ultimo_sorteio stBad = ((0, none, none), stBad) := by decide

/-- C4 amended: for every ledger file whose final data row is malformed
(draw number not an integer or date not `YYYY-MM-DD`), `read_last` catches
the error and silently returns the empty-ledger result `(0, absent,
absent)`, leaving the file as it is. -/
theorem c4_amended_silent_skip (st : SysState) (hdr : Row) (rows : List Row)
    (r : Row) (hcsv : st.csv = some (hdr :: rows))
    (hlast : (rows.filter (fun x => x != [])).getLast? = some r)
    (hbad : (r[0]? >>= parseIntPy) = none ∨ (r[1]? >>= parseDateISO) = none) :
    ler_ultimo_sorteio st = ((0, none, none), st) := by
  have hler : lerFromFile (hdr :: rows) = (0, none, none) := by
    simp only [lerFromFile, hlast]
    rcases hbad with hb | hb
    · rw [hb]
    · rw [hb]
      rcases h1 : r[0]? >>= parseIntPy with - | n <;> rfl
  simp only [ler_ultimo_sorteio, hcsv, hler]

/-- C4 amended witness: a ledger whose final row carries the impossible
date `"2024-13-99"` is read as empty, unchanged. -/
theorem c4_amended_witness :
    ler_ultimo_sorteio stBad2 = ((0, none, none), stBad2) :=
  c4_amended_silent_skip stBad2 headerRow [rowBadDate] rowBadDate rfl
    (by decide) (Or.inr (by decide))

/-- C8: `import_from_csv` (the mirror rebuild) is idempotent — run twice on
an unchanged ledger it returns the same count and leaves the same mirror —
and on an absent ledger file it returns 0 and writes nothing. -/
theorem c8_rebuild_idempotent (st : SysState) :
    (import_from_csv (import_from_csv st).2).1 = (import_from_csv st).1 ∧
    (import_from_csv (import_from_csv st).2).2 = (import_from_csv st).2 ∧
    (st.csv = none → import_from_csv st = (0, st)) := by
  rcases hc : st.csv with - | file
  · have he : import_from_csv st = (0, st) := by rw [import_from_csv, hc]
    refine ⟨?_, ?_, fun _ => he⟩ <;> simp [he]
  · rcases hcore : importCore file with - | ⟨n, tbl⟩
    · have he : import_from_csv st = (0, st) := by
        simp only [import_from_csv, hc, hcore]
      refine ⟨?_, ?_, ?_⟩
      · simp [he]
      · simp [he]
      · exact fun _ => he
    · have he : import_from_csv st = (n, { st with mirror := some tbl }) := by
        simp only [import_from_csv, hc, hcore]
      have he2 : import_from_csv { st with mirror := some tbl } =
          (n, { st with mirror := some tbl }) := by
        rw [import_from_csv]
        simp only [hc, hcore]
      refine ⟨?_, ?_, ?_⟩
      · simp [he, he2]
      · simp [he, he2]
      · intro h0
        exact Option.noConfusion h0

/-- C8 witness: rebuilding from an absent ledger returns 0 and performs no
write. -/
theorem c8_witness :
    import_from_csv ⟨none, some [row14]⟩ = (0, ⟨none, some [row14]⟩) :=
  (c8_rebuild_idempotent ⟨none, some [row14]⟩).2.2 rfl

/-- C10: `read_last` ignores blank lines — its result on any ledger equals
its result with the blank rows removed, no fault arises and the file is
untouched — and when the last non-blank data row parses, that row (with its
parsed number and date) is exactly what is returned. -/
theorem c10_blank_lines_ignored (hdr : Row) (rows : List Row)
    (m : Option (List Row)) :
    (ler_ultimo_sorteio ⟨some (hdr :: rows), m⟩).1 =
      (ler_ultimo_sorteio
        ⟨some (hdr :: rows.filter (fun r => r != [])), m⟩).1 ∧
    (ler_ultimo_sorteio ⟨some (hdr :: rows), m⟩).2 = ⟨some (hdr :: rows), m⟩ ∧
    ∀ r n dt, (rows.filter (fun r => r != [])).getLast? = some r →
      (r[0]? >>= parseIntPy) = some n → (r[1]? >>= parseDateISO) = some dt →
      (ler_ultimo_sorteio ⟨some (hdr :: rows), m⟩).1 = (n, some dt, some r) := by
  refine ⟨?_, rfl, ?_⟩
  · show lerFromFile (hdr :: rows) =
      lerFromFile (hdr :: rows.filter (fun r => r != []))
    simp only [lerFromFile, List.filter_filter, Bool.and_self]
  · intro r n dt hlast h0 h1
    show lerFromFile (hdr :: rows) = (n, some dt, some r)
    simp only [lerFromFile, hlast, h0, h1]

/-- C10 witness: with a blank line before and after `row14`, `read_last`
returns `row14` parsed. -/
theorem c10_witness :
    (ler_ultimo_sorteio ⟨some (headerRow :: [[], row14, []]), none⟩).1 =
      (1, some ⟨2024, 5, 14⟩, some row14) :=
  (c10_blank_lines_ignored headerRow [[], row14, []] none).2.2 row14 1
    ⟨2024, 5, 14⟩ (by decide) (by decide) (by decide)

/-- With a 200 status and a parsed header block, the cycle outcome is
decided by the results block. -/
theorem obter_eq_of_stages {p : Page} {num : Int} {dt : Date}
    (hh : headerStage p = .ok (num, dt)) :
    obter_resultados ⟨200, p⟩ =
      match resultsStage p with
      | .failed k => .failed k
      | .raised => .raised
      | .ok (nums, stars) =>
        .success ⟨num, dt, monthKey dt, nums, stars, winnersStage p,
          if dayName dt = "Friday" then "Sexta-Feira" else "Terça-Feira"⟩ := by
  rw [obter_resultados, if_pos rfl, hh]

/-- C5: the extractor splits the fetched results text on `"+"` and
succeeds only when exactly one `"+"` is present; with the earlier lookups
fine, any other number of `"+"` occurrences gives
`Failed(MalformedResultFormat)`. -/
theorem c5_plus_split (p : Page) :
    (∀ d, obter_resultados ⟨200, p⟩ = .success d →
      ∃ t, liText2 p = some t ∧ plusCount t = 1) ∧
    (∀ nd t, headerStage p = .ok nd → liText2 p = some t → plusCount t ≠ 1 →
      obter_resultados ⟨200, p⟩ = .failed .malformedResultFormat) := by
  have hlen : ∀ t : String, (splitCharS t '+').length = plusCount t + 1 := by
    intro t
    rw [splitCharS, List.length_map, length_splitChar, plusCount]
  constructor
  · intro d h
    obtain ⟨-, num, dt, nums, stars, hh, hr, -⟩ := obter_success_elim h
    obtain ⟨t, a, b, ht, hsp, -, -⟩ := resultsStage_ok_elim hr
    refine ⟨t, ht, ?_⟩
    have hl := congrArg List.length hsp
    rw [hlen] at hl
    simpa using hl
  · intro nd t hh ht hcnt
    obtain ⟨num, dt⟩ := nd
    have hfail : resultsStage p = .failed .malformedResultFormat :=
      resultsStage_malformed ht (by rw [hlen]; omega)
    rw [obter_eq_of_stages hh, hfail]

/-- C5 witness: the text `"1 2 3 4 5 6 7"` (no `"+"`) is rejected as
malformed. -/
theorem c5_witness :
    obter_resultados ⟨200, pageNoPlus⟩ = .failed .malformedResultFormat :=
  (c5_plus_split pageNoPlus).2 (42, ⟨2024, 5, 17⟩) "1 2 3 4 5 6 7"
    (by decide) (by decide) (by decide)

/-- C6 counterexample: the extractor happily returns a record with three
main numbers from the text `"1 2 3 + 4 5"` — no count of 5 is enforced, so
the claimed invariant fails. -/
theorem c6_counterexample :
    obter_resultados respShort = .success recShort ∧
    recShort.numeros.length = 3 := by decide

/-- C6 amended: every record the extractor returns carries exactly the
whitespace tokens of the text before the `"+"` as `main_numbers` and those
after it as `bonus_numbers`, in extraction order — their counts are
whatever the page provides, 5 and 2 only when the source text has that
shape. -/
theorem c6_amended_tokens (resp : Response) (d : ScrapedData)
    (h : obter_resultados resp = .success d) :
    ∃ t a b, liText2 resp.page = some t ∧ splitCharS t '+' = [a, b] ∧
      d.numeros = pyTokens a ∧ d.estrelas = pyTokens b := by
  obtain ⟨-, num, dt, nums, stars, hh, hr, hd⟩ := obter_success_elim h
  obtain ⟨t, a, b, ht, hsp, hn, hs⟩ := resultsStage_ok_elim hr
  subst hd
  exact ⟨t, a, b, ht, hsp, hn, hs⟩

/-- C6 amended witness. -/
theorem c6_amended_witness :
    ∃ t a b, liText2 respShort.page = some t ∧ splitCharS t '+' = [a, b] ∧
      recShort.numeros = pyTokens a ∧ recShort.estrelas = pyTokens b :=
  c6_amended_tokens respShort recShort (by decide)

/-- C9 counterexample: 2024-05-13 is a Monday — neither a Tuesday nor a
Friday — yet the fetch succeeds and silently assigns the Tuesday category,
instead of the claimed extraction fault. -/
theorem c9_counterexample :
    dayName dateMon ≠ "Friday" ∧ dayName dateMon ≠ "Tuesday" ∧
    obter_resultados respMon = .success recMon ∧
    recMon.sorteio_tipo = "Terça-Feira" ∧ recMon.data_sorteio = dateMon := by
  decide

/-- C9 amended: a parsed draw date whose weekday is not Friday is not a
fault: the fetch still succeeds and the category silently defaults to
`"Terça-Feira"`. -/
theorem c9_amended_silent_default (resp : Response) (d : ScrapedData)
    (h : obter_resultados resp = .success d)
    (hwd : dayName d.data_sorteio ≠ "Friday") :
    d.sorteio_tipo = "Terça-Feira" := by
  obtain ⟨-, num, dt, nums, stars, -, -, hd⟩ := obter_success_elim h
  subst hd
  exact if_neg hwd

/-- C9 amended witness. -/
theorem c9_amended_witness : recMon.sorteio_tipo = "Terça-Feira" :=
  c9_amended_silent_default respMon recMon (by decide) (by decide)

/-- C7: `read_last` on a missing ledger creates the header-only file and
returns `(0, absent, absent)`; on a header-only file it returns the same;
and a subsequent cycle with any successfully scraped record appends it with
draw number 1. -/
theorem c7_empty_ledger_bootstrap :
    (∀ m, ler_ultimo_sorteio ⟨none, m⟩ =
      ((0, none, none), ⟨some [headerRow], m⟩)) ∧
    (∀ m, ler_ultimo_sorteio ⟨some [headerRow], m⟩ =
      ((0, none, none), ⟨some [headerRow], m⟩)) ∧
    ∀ resp m novo, obter_resultados resp = .success novo →
      (atualizar_resultados resp ⟨none, m⟩).1 =
        .appended { novo with sorteio_numero := 1 } ∧
      numCol (atualizar_resultados resp ⟨none, m⟩).2 = [some 1] := by
  refine ⟨fun m => rfl, fun m => rfl, ?_⟩
  intro resp m novo h
  rw [atualizar_of_success h,
    if_pos (show aceitaNovo (readDate ⟨none, m⟩) novo.data_sorteio = true
      from rfl)]
  constructor
  · rfl
  · rw [numCol, import_from_csv_csv]
    have hcsv : (salvar_novo_sorteio (ler_ultimo_sorteio ⟨none, m⟩).2
        { novo with sorteio_numero := readNumber ⟨none, m⟩ + 1 }).csv =
        some [headerRow,
          ScrapedData.toRow { novo with sorteio_numero := 1 }] := rfl
    rw [hcsv]
    show [ScrapedData.toRow { novo with sorteio_numero := 1 }].map
      (fun r => r[0]? >>= parseIntPy) = [some 1]
    simp only [List.map_cons, List.map_nil, toRow_get0]
    simp [show parseIntPy (intRepr 1) = some 1 from by decide]

/-- C7 witness: from a missing ledger, the `pageGood` record is appended
as draw 1. -/
theorem c7_witness :
    (atualizar_resultados respGood ⟨none, none⟩).1 =
      .appended { recGood with sorteio_numero := 1 } ∧
    numCol (atualizar_resultados respGood ⟨none, none⟩).2 = [some 1] :=
  c7_empty_ledger_bootstrap.2.2 respGood none recGood (by decide)

/-- C2: every accepted record is appended with draw number
`last_number + 1`, so from an empty ledger any sequence of reconciliation
cycles — whatever draw numbers the pages report — leaves a draw-number
column that is exactly `1, 2, …, k` for the number `k` of accepted
appends. -/
theorem c2_monotonic_numbering :
    (∀ (resp : Response) (st : SysState) (novo : ScrapedData),
      (atualizar_resultados resp st).1 = .appended novo →
      novo.sorteio_numero = readNumber st + 1) ∧
    ∀ (resps : List Response) (m : Option (List Row)), ∃ k,
      numCol (runCycles resps ⟨none, m⟩) =
        (List.range' 1 k).map (fun i => some ((i : Nat) : Int)) := by
  constructor
  · intro resp st novo h
    cases hobt : obter_resultados resp with
    | success d =>
      rw [atualizar_of_success hobt] at h
      cases hacc : aceitaNovo (readDate st) d.data_sorteio with
      | true =>
        rw [hacc, if_pos rfl] at h
        injection h with h2
        rw [← h2]
      | false =>
        rw [hacc, if_neg Bool.false_ne_true] at h
        cases h
    | failed k =>
      rw [atualizar_of_failed hobt] at h
      cases h
    | raised =>
      rw [atualizar_of_raised hobt] at h
      cases h
  · intro resps m
    cases resps with
    | nil => exact ⟨0, rfl⟩
    | cons r rest =>
      rcases inv_step r (inv_init m) with h1 | h1 <;>
      · obtain ⟨k, hk⟩ := inv_run rest h1
        refine ⟨k, ?_⟩
        rw [runCycles, List.foldl_cons, atualizar_none_eq]
        exact numCol_of_inv hk

/-- C2 witness: the first accepted append from an empty ledger carries
draw number `0 + 1`, not the page's reported 42. -/
theorem c2_witness :
    ({ recGood with sorteio_numero := 1 } : ScrapedData).sorteio_numero =
      readNumber ⟨none, none⟩ + 1 :=
  c2_monotonic_numbering.1 respGood ⟨none, none⟩
    { recGood with sorteio_numero := 1 } (by decide)

end EuroScaper
